import Mathlib

/-!
Verification development for the DataParasite curation viewers.

The embedded code is the JsonlViewer component (file/annotation loading,
debounced autosave, annotation overlay updates) and the CsvViewer component
(grid keyboard state machine, column deletion).  JavaScript objects are
modelled as ordered association lists with JS property read and write
semantics,
JSON.parse and JSON.stringify are treated as the external codec (a text line
is classified by the two tests the code performs on it: blank after trim,
parse failure, or a parsed object), and the debounce timer plus asynchronous
storage writes are modelled operationally on an integer timeline.
-/

namespace DataParasite

/-- Model of a JavaScript/JSON value as it flows through the viewer: null,
booleans, numbers, strings, arrays and objects.  An object is an ordered list
of key/value bindings with distinct keys, as produced by JSON.parse. -/
inductive Val : Type where
  | vNull : Val
  | vBool : Bool → Val
  | vNum : Int → Val
  | vStr : String → Val
  | vArr : List Val → Val
  | vObj : List (String × Val) → Val

/-- A JavaScript object: ordered association list of string keys to values. -/
abbrev Obj := List (String × Val)

/-- JS property read obj[k]: the binding of the key, if any. -/
def getKey {β : Type} : List (String × β) → String → Option β
  | [], _ => none
  | (k1, v) :: rest, k => if k1 = k then some v else getKey rest k

/-- JS property write obj[k] = v, and spread-with-override: an existing key
keeps its position and receives the new value, a fresh key is appended. -/
def setKey {β : Type} : List (String × β) → String → β → List (String × β)
  | [], k, v => [(k, v)]
  | (k1, v1) :: rest, k, v =>
      if k1 = k then (k, v) :: rest else (k1, v1) :: setKey rest k v

/-- JS truthiness of a value. -/
def truthy : Val → Bool
  | .vNull => false
  | .vBool b => b
  | .vNum n => n != 0
  | .vStr s => s != ""
  | .vArr _ => true
  | .vObj _ => true

/-- Truthiness of a possibly-absent property (undefined is falsy). -/
def truthyOpt : Option Val → Bool
  | none => false
  | some v => truthy v

/-- JS a || b for a possibly-absent a. -/
def jsOr (a : Option Val) (b : Val) : Val :=
  match a with
  | some v => if truthy v then v else b
  | none => b

/-- The string-keyed own properties a value contributes to a spread or a
property read.  Non-objects contribute none (the viewer never spreads a
string, whose character indices we therefore do not model). -/
def asObj : Val → Obj
  | .vObj o => o
  | _ => []

/-- TELEMETRY_KEYS of the JsonlViewer: fields hidden from annotation. -/
def TELEMETRY_KEYS : List String :=
  ["input_mutation_id", "timestamp", "model", "response_id",
   "input_tokens", "output_tokens", "cached_tokens",
   "web_search_calls", "total_cost", "duration_seconds", "status",
   "user_annotations"]

/-- The default field annotation object. -/
def defaultAnnot : Val :=
  .vObj [("correctness", .vStr "unchecked"), ("comment", .vStr "")]

/-- Worker for initializeAnnotations: Object.keys(originalObj).forEach,
building newAnnot left to right. -/
def initAnnotationsAux : List (String × Val) → Obj → Obj
  | [], newAnnot => newAnnot
  | kv :: rest, newAnnot =>
      initAnnotationsAux rest
        (if kv.1 ∈ TELEMETRY_KEYS then newAnnot
         else setKey newAnnot kv.1 defaultAnnot)

/-- Models initializeAnnotations: every non-telemetry key of the original
object is mapped to the default {correctness, comment} annotation. -/
def initAnnotations (originalObj : Obj) : Obj :=
  initAnnotationsAux originalObj []

/-- One line of the raw input text, classified by the two tests the parse loop
performs on it: line.trim() empty, JSON.parse throws (the line is logged and
dropped), or JSON.parse succeeds with an object. -/
inductive Line : Type where
  | blank : Line
  | malformed : Line
  | parsed : Obj → Line

/-- The accumulator of the parse loop in handleSelectFile: the entries pushed
so far and the loadedAnnotations map keyed by entry position. -/
structure LoadAcc where
  parsedEntries : List Obj
  loadedAnnotations : Nat → Option Val

/-- The isNew block inside the parse loop: when creating a fresh output file,
a parsed object without a (truthy) user_annotations field gets one,
synthesized by initializeAnnotations from its own keys. -/
def injectAnns (isNew : Bool) (obj : Obj) : Obj :=
  if isNew && !(truthyOpt (getKey obj "user_annotations")) then
    setKey obj "user_annotations" (.vObj (initAnnotations obj))
  else obj

/-- One iteration of the parse loop: blank and malformed lines are skipped;
a parsed object (after the isNew initialization) is pushed, and if it carries
a truthy user_annotations value that value is stored in loadedAnnotations at
the current parsedEntries.length. -/
def loadStep (isNew : Bool) (acc : LoadAcc) (line : Line) : LoadAcc :=
  match line with
  | .blank => acc
  | .malformed => acc
  | .parsed j =>
      let obj := injectAnns isNew j
      let anns : Nat → Option Val :=
        if truthyOpt (getKey obj "user_annotations") then
          fun n =>
            if n = acc.parsedEntries.length then getKey obj "user_annotations"
            else acc.loadedAnnotations n
        else acc.loadedAnnotations
      ⟨acc.parsedEntries ++ [obj], anns⟩

/-- The whole parse loop of handleSelectFile over the split lines. -/
def loadFile (isNew : Bool) (lines : List Line) : LoadAcc :=
  lines.foldl (loadStep isNew) ⟨[], fun _ => none⟩

/-- The successfully parsed objects of the input, in order. -/
def parsedOf (lines : List Line) : List Obj :=
  lines.filterMap (fun l => match l with | .parsed o => some o | _ => none)

/-- The body of the map in saveToDisk: the entry is copied and, when the
looked-up entryAnnot is truthy, its user_annotations field is overwritten. -/
def mergeEntry (entryAnnot : Option Val) (entry : Obj) : Obj :=
  match entryAnnot with
  | some a => if truthy a then setKey entry "user_annotations" a else entry
  | none => entry

/-- Worker for saveToDisk: currentEntries.map((entry, idx) => ...) with the
running index made explicit. -/
def saveToDiskAux (currentAnnotations : Nat → Option Val) :
    List Obj → Nat → List Obj
  | [], _ => []
  | entry :: rest, idx =>
      mergeEntry (currentAnnotations idx) entry ::
        saveToDiskAux currentAnnotations rest (idx + 1)

/-- Models saveToDisk: the list of records written, one per output line in
order (JSON.stringify of each record and the newline join are the external
encoding step). -/
def saveToDisk (currentEntries : List Obj)
    (currentAnnotations : Nat → Option Val) : List Obj :=
  saveToDiskAux currentAnnotations currentEntries 0

/-- Result of handleSelectFile: the session state it sets plus the storage
writes it performs itself, before any user interaction. -/
structure SelectResult where
  entries : List Obj
  annotations : Nat → Option Val
  writes : List (List Obj)

/-- Models handleSelectFile: when the _annotated output file exists its
content is loaded; otherwise (NotFoundError) the output is created, the
original file's content is loaded with isNew initialization, and the
initialized content is written immediately by a direct (non-debounced)
saveToDisk call before returning. -/
def handleSelectFile (outputExists : Bool)
    (outputContent sourceContent : List Line) : SelectResult :=
  let isNew := !outputExists
  let fileContent := if outputExists then outputContent else sourceContent
  let acc := loadFile isNew fileContent
  { entries := acc.parsedEntries
    annotations := acc.loadedAnnotations
    writes :=
      if isNew then [saveToDisk acc.parsedEntries acc.loadedAnnotations]
      else [] }

/-- The JsonlViewer state read and written by handleAnnotationChange. -/
structure ViewerState where
  entries : List Obj
  annotations : Nat → Option Val
  currentIndex : Nat

/-- Models handleAnnotationChange(key, field, value): the overlay entry of the
current record is rebuilt with the given sub-field set, defaults supplied when
the entry or the field annotation was absent.  The debounced save it triggers
is modelled separately on the timeline; it reads, never writes, this state. -/
def handleAnnotationChange (s : ViewerState) (key field : String)
    (value : Val) : ViewerState :=
  let prev := s.annotations
  let currentEntryAnnots : Val := jsOr (prev s.currentIndex) (.vObj [])
  let fieldAnnot : Val :=
    jsOr (getKey (asObj currentEntryAnnots) key) defaultAnnot
  let newAnnots : Nat → Option Val := fun n =>
    if n = s.currentIndex then
      some (.vObj (setKey (asObj currentEntryAnnots) key
        (.vObj (setKey (asObj fieldAnnot) field value))))
    else prev n
  { s with annotations := newAnnots }

/-- The annotation map of record i in an overlay, read the way the viewer
reads it: annotations[i] || {}. -/
def entryAnnots (anns : Nat → Option Val) (i : Nat) : Obj :=
  asObj (jsOr (anns i) (.vObj []))

/-- The annotation value of field k of record i in an overlay. -/
def fieldAnnotAt (anns : Nat → Option Val) (i : Nat) (k : String) :
    Option Val :=
  getKey (entryAnnots anns i) k

/-- A sub-field (correctness or comment) of the annotation of (i, k). -/
def subFieldAt (anns : Nat → Option Val) (i : Nat) (k f : String) :
    Option Val :=
  (fieldAnnotAt anns i k).bind (fun v => getKey (asObj v) f)

/-- The annotation of field k of record i inside a written output file. -/
def annotAt (out : List Obj) (i : Nat) (k : String) : Option Val :=
  (out.get? i).bind (fun o =>
    (getKey o "user_annotations").bind (fun ua => getKey (asObj ua) k))

/-- The user_annotations value a stored object contributes to the overlay:
present iff truthy.  Observation helper for the load loop. -/
def uaOf (o : Option Obj) : Option Val :=
  match o with
  | some obj =>
      if truthyOpt (getKey obj "user_annotations") then
        getKey obj "user_annotations"
      else none
  | none => none

/-- Operational model of useDebounce on an integer timeline.  Calls are
processed in time order; pending holds the (fire time, payload) of the armed
timer.  A call whose time is at or past the pending fire time finds the timer
already fired (its payload is emitted); otherwise the call cancels the timer
(clearTimeout).  Either way the call arms a fresh timer delay units later
with its own payload (setTimeout). -/
def debounceAux {α : Type} (delay : Nat) :
    List (Nat × α) → Option (Nat × α) → List (Nat × α)
  | [], pending => match pending with | some p => [p] | none => []
  | c :: rest, pending =>
      match pending with
      | some p =>
          if p.1 ≤ c.1 then
            p :: debounceAux delay rest (some (c.1 + delay, c.2))
          else debounceAux delay rest (some (c.1 + delay, c.2))
      | none => debounceAux delay rest (some (c.1 + delay, c.2))

/-- The (fire time, payload) events at which the debounced callback — here
always saveToDisk via debouncedSave — actually runs, for a given list of
(call time, payload) invocations of the debounced function. -/
def useDebounce {α : Type} (delay : Nat) (calls : List (Nat × α)) :
    List (Nat × α) :=
  debounceAux delay calls none

/-- saveToDisk awaits writeFileText with no in-flight guard: a write fired at
time t occupies the storage until t + writeLatency.  overlapFree checks that
no write in the (time-ordered) list starts while the previous one is still in
flight. -/
def overlapFree (writeLatency : Nat) : List Nat → Bool
  | [] => true
  | [_] => true
  | t1 :: t2 :: rest =>
      (t1 + writeLatency ≤ t2) && overlapFree writeLatency (t2 :: rest)

/-- A CSV row of the CsvViewer: column name → cell text, as delivered by the
external CSV parser (header mode, all values text). -/
abbrev Row := List (String × String)

/-- selectedCell of the CsvViewer: { row, col }.  The row is an Int because
the clamping arithmetic is done before any bounds guarantee, and the column
is the header name looked up by (possibly out-of-range) index. -/
structure Cell where
  row : Int
  col : Option String

/-- The CsvViewer state the keyboard state machine reads and writes. -/
structure GridState where
  data : List Row
  headers : List String
  selectedCell : Option Cell
  isEditing : Bool

/-- newData[rowIndex][header] = value on the row list: out-of-range indices
leave the list unchanged (the handlers are only reachable from rendered,
in-range cells). -/
def updateRowAt : List Row → Nat → String → String → List Row
  | [], _, _, _ => []
  | r :: rs, 0, h, v => setKey r h v :: rs
  | r :: rs, n + 1, h, v => r :: updateRowAt rs n h v

/-- Models handleCellChange(rowIndex, header, value). -/
def handleCellChange (data : List Row) (rowIndex : Nat)
    (header value : String) : List Row :=
  updateRowAt data rowIndex header value

/-- JS Array.indexOf: index of the first occurrence, -1 when absent. -/
def jsIndexOf (l : List String) (x : String) : Int :=
  match l with
  | [] => -1
  | a :: rest =>
      if a = x then 0
      else
        let i := jsIndexOf rest x
        if i = -1 then -1 else i + 1

/-- headers[i] under a JS (possibly negative) index: undefined when out of
range. -/
def intGet (l : List String) (i : Int) : Option String :=
  if i < 0 then none else l.get? i.toNat

/-- The keys handleKeyDown distinguishes; every other key (including plain
characters, which only edit the DOM draft) is Key.other. -/
inductive Key : Type where
  | enter | escape | arrowUp | arrowDown | arrowLeft | arrowRight | other

/-- The editing-mode branch of handleKeyDown: Enter commits the draft and
moves one row down clamped to the last row; Escape only leaves editing mode
(never committing); ArrowUp and ArrowDown commit and move clamped; every
other key returns with no state change (plain typing only edits the DOM
draft). -/
def handleKeyDownEditing (s : GridState) (k : Key) (innerText : String)
    (rowIndex : Nat) (header : String) : GridState :=
  match k with
  | .enter =>
      { s with
          data := handleCellChange s.data rowIndex header innerText
          isEditing := false
          selectedCell := some
            ⟨min ((s.data.length : Int) - 1) ((rowIndex : Int) + 1),
             some header⟩ }
  | .escape => { s with isEditing := false }
  | .arrowUp =>
      { s with
          data := handleCellChange s.data rowIndex header innerText
          isEditing := false
          selectedCell := some
            ⟨max 0 (min ((s.data.length : Int) - 1) ((rowIndex : Int) - 1)),
             some header⟩ }
  | .arrowDown =>
      { s with
          data := handleCellChange s.data rowIndex header innerText
          isEditing := false
          selectedCell := some
            ⟨max 0 (min ((s.data.length : Int) - 1) ((rowIndex : Int) + 1)),
             some header⟩ }
  | _ => s

/-- The navigate-mode branch of handleKeyDown: Enter enters editing mode and
returns early; arrow keys move one step clamped to the grid bounds on the
respective axis; every other key falls through to setSelectedCell with the
unchanged nextRow and nextColIdx. -/
def handleKeyDownNavigate (s : GridState) (k : Key) (rowIndex : Nat)
    (header : String) : GridState :=
  match k with
  | .enter => { s with isEditing := true }
  | .arrowUp =>
      { s with
          selectedCell :=
            some ⟨max 0 ((rowIndex : Int) - 1),
                  intGet s.headers (jsIndexOf s.headers header)⟩ }
  | .arrowDown =>
      { s with
          selectedCell :=
            some ⟨min ((s.data.length : Int) - 1) ((rowIndex : Int) + 1),
                  intGet s.headers (jsIndexOf s.headers header)⟩ }
  | .arrowLeft =>
      { s with
          selectedCell :=
            some ⟨(rowIndex : Int),
                  intGet s.headers (max 0 (jsIndexOf s.headers header - 1))⟩ }
  | .arrowRight =>
      { s with
          selectedCell :=
            some ⟨(rowIndex : Int),
                  intGet s.headers (min ((s.headers.length : Int) - 1)
                    (jsIndexOf s.headers header + 1))⟩ }
  | .escape =>
      { s with
          selectedCell :=
            some ⟨(rowIndex : Int),
                  intGet s.headers (jsIndexOf s.headers header)⟩ }
  | .other =>
      { s with
          selectedCell :=
            some ⟨(rowIndex : Int),
                  intGet s.headers (jsIndexOf s.headers header)⟩ }

/-- Models handleKeyDown(e, rowIndex, header): the editing branch returns
early, otherwise the navigation branch runs.  innerText is e.target's live
draft text. -/
def handleKeyDown (s : GridState) (k : Key) (innerText : String)
    (rowIndex : Nat) (header : String) : GridState :=
  if s.isEditing then handleKeyDownEditing s k innerText rowIndex header
  else handleKeyDownNavigate s k rowIndex header

/-- The Table of the CsvViewer: the headers sequence and the row list. -/
structure TableState where
  headers : List String
  data : List Row

/-- Models handleDeleteColumn on the context-menu target (confirmed path):
only headers is filtered; the row objects are not touched. -/
def handleDeleteColumn (t : TableState) (target : String) : TableState :=
  { t with headers := t.headers.filter (fun h => h != target) }

/-- The cell value the grid displays and exports at (i, h). -/
def valueAt (data : List Row) (i : Nat) (h : String) : Option String :=
  (data.get? i).bind (fun r => getKey r h)

/-- Concrete table for the column-deletion counterexample. -/
def t0 : TableState := ⟨["a", "b"], [[("a", "1"), ("b", "2")]]⟩

/-- Concrete source record that already carries an annotation sub-object. -/
def cSrcObj : Obj :=
  [("q", .vStr "x"),
   ("user_annotations",
     .vObj [("q", .vObj [("correctness", .vStr "yes"),
                         ("comment", .vStr "")])])]

/-- Concrete grid in editing mode for the edit-commit witnesses. -/
def g0 : GridState :=
  ⟨[[("a", "old"), ("b", "u")], [("a", "v"), ("b", "w")]],
   ["a", "b"], some ⟨0, some "a"⟩, true⟩

/-- The same grid in navigate mode, selected on the last row. -/
def g1 : GridState := { g0 with isEditing := false, selectedCell := some ⟨1, some "a"⟩ }

/-- Concrete viewer state for the annotation-change witness. -/
def vs0 : ViewerState := ⟨[[("q", .vStr "x")]], fun _ => none, 0⟩

/-! ### Lemmas about JS object reads and writes -/

theorem getKey_setKey_self {β : Type} (o : List (String × β)) (k : String)
    (v : β) : getKey (setKey o k v) k = some v := by
  induction o with
  | nil => simp [getKey, setKey]
  | cons kv rest ih =>
      by_cases hk : kv.1 = k
      · simp [setKey, hk, getKey]
      · simp [setKey, hk, getKey, ih]

theorem getKey_setKey_ne {β : Type} (o : List (String × β)) {k k2 : String}
    (hk : k ≠ k2) (v : β) : getKey (setKey o k v) k2 = getKey o k2 := by
  induction o with
  | nil => simp [getKey, setKey, hk]
  | cons kv rest ih =>
      by_cases h1 : kv.1 = k
      · simp [setKey, h1, getKey, hk]
      · simp only [setKey, h1, if_false, getKey]
        by_cases h2 : kv.1 = k2
        · simp [h2]
        · simp [h2, ih]

theorem getKey_injectAnns_ne (isNew : Bool) (o : Obj) {k : String}
    (hk : k ≠ "user_annotations") :
    getKey (injectAnns isNew o) k = getKey o k := by
  unfold injectAnns
  split
  · exact getKey_setKey_ne o (Ne.symm hk) _
  · rfl

theorem getKey_mergeEntry_ne (a : Option Val) (e : Obj) {k : String}
    (hk : k ≠ "user_annotations") :
    getKey (mergeEntry a e) k = getKey e k := by
  unfold mergeEntry
  cases a with
  | none => rfl
  | some v =>
      by_cases hv : truthy v
      · simp [hv, getKey_setKey_ne e (Ne.symm hk)]
      · simp [hv]

theorem getKey_initAnnotationsAux (o : List (String × Val)) :
    ∀ (acc : Obj) (k : String),
      getKey (initAnnotationsAux o acc) k =
        if k ∈ o.map Prod.fst ∧ k ∉ TELEMETRY_KEYS then some defaultAnnot
        else getKey acc k := by
  induction o with
  | nil => intro acc k; simp [initAnnotationsAux]
  | cons kv rest ih =>
      intro acc k
      simp only [initAnnotationsAux]
      rw [ih]
      by_cases htel : kv.1 ∈ TELEMETRY_KEYS
      · simp only [htel, if_pos]
        by_cases hk : k = kv.1
        · subst hk
          simp [htel]
        · by_cases hc : k ∈ rest.map Prod.fst ∧ k ∉ TELEMETRY_KEYS
          · simp [hc, List.mem_cons, hc.1, hc.2]
          · rw [if_neg hc, if_neg]
            intro hcon
            rcases hcon with ⟨hin, hnotin⟩
            rcases List.mem_cons.mp hin with h1 | h1
            · exact hk h1
            · exact hc ⟨h1, hnotin⟩
      · simp only [htel, if_neg, not_false_iff]
        by_cases hmem : k ∈ rest.map Prod.fst ∧ k ∉ TELEMETRY_KEYS
        · simp [hmem, hmem.1, hmem.2]
        · by_cases hk : k = kv.1
          · subst hk
            simp [htel, getKey_setKey_self]
          · rw [if_neg hmem, if_neg, getKey_setKey_ne _ (fun h2 => hk h2.symm)]
            intro hcon
            rcases hcon with ⟨hin, hnotin⟩
            rcases List.mem_cons.mp hin with h1 | h1
            · exact hk h1
            · exact hmem ⟨h1, hnotin⟩

theorem getKey_initAnnotations (o : Obj) (k : String) :
    getKey (initAnnotations o) k =
      if k ∈ o.map Prod.fst ∧ k ∉ TELEMETRY_KEYS then some defaultAnnot
      else none := by
  rw [initAnnotations, getKey_initAnnotationsAux]
  rfl

/-! ### Lemmas about the load loop and saveToDisk -/

theorem foldl_loadStep_entries (isNew : Bool) (lines : List Line) :
    ∀ (acc : LoadAcc),
      (List.foldl (loadStep isNew) acc lines).parsedEntries =
        acc.parsedEntries ++ (parsedOf lines).map (injectAnns isNew) := by
  induction lines with
  | nil => intro acc; simp [parsedOf]
  | cons line rest ih =>
      intro acc
      cases line with
      | blank => simpa [parsedOf, loadStep] using ih acc
      | malformed => simpa [parsedOf, loadStep] using ih acc
      | parsed j =>
          simp only [List.foldl_cons, parsedOf, List.filterMap_cons]
          rw [ih]
          simp [loadStep, parsedOf]

theorem loadFile_entries (isNew : Bool) (lines : List Line) :
    (loadFile isNew lines).parsedEntries =
      (parsedOf lines).map (injectAnns isNew) := by
  simpa using foldl_loadStep_entries isNew lines ⟨[], fun _ => none⟩

theorem loadStep_annots_inv (isNew : Bool) (acc : LoadAcc) (line : Line)
    (h : ∀ n, acc.loadedAnnotations n = uaOf (acc.parsedEntries.get? n)) :
    ∀ n, (loadStep isNew acc line).loadedAnnotations n =
      uaOf ((loadStep isNew acc line).parsedEntries.get? n) := by
  cases line with
  | blank => exact h
  | malformed => exact h
  | parsed j =>
      intro n
      simp only [loadStep]
      by_cases ht : truthyOpt (getKey (injectAnns isNew j) "user_annotations")
      · simp only [ht, if_pos]
        by_cases hn : n = acc.parsedEntries.length
        · subst hn
          simp [List.get?_concat_length, uaOf, ht]
        · rw [if_neg hn, h n]
          rcases Nat.lt_or_ge n acc.parsedEntries.length with hlt | hge
          · rw [List.get?_append hlt]
          · have hgt : acc.parsedEntries.length < n + 1 := by omega
            have h1 : acc.parsedEntries.get? n = none :=
              List.get?_eq_none.mpr (by omega)
            have h2 : (acc.parsedEntries ++ [injectAnns isNew j]).get? n = none := by
              apply List.get?_eq_none.mpr
              simp
              omega
            rw [h1, h2]
      · simp only [ht, if_neg, Bool.false_eq_true, not_false_iff]
        rw [h n]
        by_cases hn : n = acc.parsedEntries.length
        · subst hn
          have h1 : acc.parsedEntries.get? acc.parsedEntries.length = none :=
            List.get?_eq_none.mpr (by omega)
          rw [h1, List.get?_concat_length]
          simp [uaOf, ht]
        · rcases Nat.lt_or_ge n acc.parsedEntries.length with hlt | hge
          · rw [List.get?_append hlt]
          · have h1 : acc.parsedEntries.get? n = none :=
              List.get?_eq_none.mpr (by omega)
            have h2 : (acc.parsedEntries ++ [injectAnns isNew j]).get? n = none := by
              apply List.get?_eq_none.mpr
              simp
              omega
            rw [h1, h2]

theorem foldl_loadStep_annots (isNew : Bool) (lines : List Line) :
    ∀ (acc : LoadAcc),
      (∀ n, acc.loadedAnnotations n = uaOf (acc.parsedEntries.get? n)) →
      ∀ n, (List.foldl (loadStep isNew) acc lines).loadedAnnotations n =
        uaOf ((List.foldl (loadStep isNew) acc lines).parsedEntries.get? n) := by
  induction lines with
  | nil => intro acc h n; exact h n
  | cons line rest ih =>
      intro acc h n
      exact ih (loadStep isNew acc line) (loadStep_annots_inv isNew acc line h) n

theorem loadFile_annots (isNew : Bool) (lines : List Line) (n : Nat) :
    (loadFile isNew lines).loadedAnnotations n =
      uaOf ((loadFile isNew lines).parsedEntries.get? n) :=
  foldl_loadStep_annots isNew lines ⟨[], fun _ => none⟩ (fun _ => by simp [uaOf]) n

theorem saveToDiskAux_get (anns : Nat → Option Val) (l : List Obj) :
    ∀ (idx n : Nat),
      (saveToDiskAux anns l idx).get? n =
        (l.get? n).map (fun e => mergeEntry (anns (idx + n)) e) := by
  induction l with
  | nil => intro idx n; simp [saveToDiskAux]
  | cons e rest ih =>
      intro idx n
      cases n with
      | zero => simp [saveToDiskAux]
      | succ m =>
          have harith : idx + 1 + m = idx + (m + 1) := by omega
          simp only [saveToDiskAux, List.get?_cons_succ, ih (idx + 1) m, harith]

theorem saveToDiskAux_length (anns : Nat → Option Val) (l : List Obj) :
    ∀ (idx : Nat), (saveToDiskAux anns l idx).length = l.length := by
  induction l with
  | nil => intro idx; simp [saveToDiskAux]
  | cons e rest ih => intro idx; simp [saveToDiskAux, ih]

theorem saveToDisk_get (anns : Nat → Option Val) (l : List Obj) (n : Nat) :
    (saveToDisk l anns).get? n =
      (l.get? n).map (fun e => mergeEntry (anns n) e) := by
  simpa using saveToDiskAux_get anns l 0 n

/-! ### Lemmas about the debounce timer model -/

theorem debounceAux_coalesce {α : Type} (delay : Nat) (cs : List (Nat × α)) :
    ∀ (a : Nat × α),
      List.Chain' (fun x y => x.1 < y.1 ∧ y.1 < x.1 + delay) (a :: cs) →
      debounceAux delay cs (some (a.1 + delay, a.2)) =
        [((cs.getLastD a).1 + delay, (cs.getLastD a).2)] := by
  induction cs with
  | nil => intro a _; simp [debounceAux]
  | cons b bs ih =>
      intro a h
      rw [List.chain'_cons] at h
      obtain ⟨hab, hrest⟩ := h
      have hnot : ¬ (a.1 + delay ≤ b.1) := by omega
      simp only [debounceAux, hnot, if_false, List.getLastD_cons]
      exact ih b hrest

theorem debounceAux_separate {α : Type} (delay : Nat) (cs : List (Nat × α)) :
    ∀ (a : Nat × α),
      List.Chain' (fun x y => x.1 + delay < y.1) (a :: cs) →
      debounceAux delay cs (some (a.1 + delay, a.2)) =
        (a.1 + delay, a.2) :: cs.map (fun x => (x.1 + delay, x.2)) := by
  induction cs with
  | nil => intro a _; simp [debounceAux]
  | cons b bs ih =>
      intro a h
      rw [List.chain'_cons] at h
      obtain ⟨hab, hrest⟩ := h
      have hle : a.1 + delay ≤ b.1 := by omega
      simp only [debounceAux, hle, if_true, List.map_cons]
      rw [ih b hrest]

/-! ### Lemmas about the grid -/

theorem updateRowAt_get (v : String) (data : List Row) :
    ∀ (i : Nat) (r : Row) (h : String), data.get? i = some r →
      (updateRowAt data i h v).get? i = some (setKey r h v) := by
  induction data with
  | nil => intro i r h hr; simp at hr
  | cons r0 rs ih =>
      intro i r h hr
      cases i with
      | zero =>
          simp only [List.get?_cons_zero, Option.some.injEq] at hr
          subst hr
          simp [updateRowAt]
      | succ m =>
          simp only [List.get?_cons_succ] at hr
          simp only [updateRowAt, List.get?_cons_succ]
          exact ih m r h hr

theorem jsIndexOf_nonneg {l : List String} {x : String} (h : x ∈ l) :
    0 ≤ jsIndexOf l x := by
  induction l with
  | nil => simp at h
  | cons a rest ih =>
      by_cases ha : a = x
      · simp [jsIndexOf, ha]
      · have hx : x ∈ rest := by
          rcases List.mem_cons.mp h with h1 | h1
          · exact absurd h1.symm ha
          · exact h1
        have hr := ih hx
        simp only [jsIndexOf, ha, if_false]
        split
        · omega
        · omega

theorem intGet_jsIndexOf {l : List String} {x : String} (h : x ∈ l) :
    intGet l (jsIndexOf l x) = some x := by
  induction l with
  | nil => simp at h
  | cons a rest ih =>
      by_cases ha : a = x
      · simp [jsIndexOf, ha, intGet]
      · have hx : x ∈ rest := by
          rcases List.mem_cons.mp h with h1 | h1
          · exact absurd h1.symm ha
          · exact h1
        have hpos := jsIndexOf_nonneg hx
        have hne : jsIndexOf rest x ≠ -1 := by omega
        have hstep : jsIndexOf (a :: rest) x = jsIndexOf rest x + 1 := by
          simp [jsIndexOf, ha, hne]
        rw [hstep]
        have htn : (jsIndexOf rest x + 1).toNat = (jsIndexOf rest x).toNat + 1 := by
          omega
        have hrec := ih hx
        simp only [intGet] at hrec ⊢
        rw [if_neg (by omega), htn, List.get?_cons_succ]
        rw [if_neg (by omega)] at hrec
        exact hrec

theorem get_of_jsIndexOf_zero {l : List String} {x : String}
    (h : jsIndexOf l x = 0) : l.get? 0 = some x := by
  cases l with
  | nil => simp [jsIndexOf] at h
  | cons a rest =>
      by_cases ha : a = x
      · simp [ha]
      · exfalso
        simp only [jsIndexOf, ha, if_false] at h
        split at h <;> omega

/-! ### The claims -/

/-- C1: serializing the document and overlay produced by load emits the
successfully parsed records one per line (newline-joining is the external
encoding), in their original relative order, with no record duplicated or
dropped, and with every original field value other than the user_annotations
sub-object unchanged. -/
theorem c1_round_trip (isNew : Bool) (lines : List Line) :
    (saveToDisk (loadFile isNew lines).parsedEntries
        (loadFile isNew lines).loadedAnnotations).length
      = (parsedOf lines).length
  ∧ ∀ n o, (parsedOf lines).get? n = some o →
      ∃ o2,
        (saveToDisk (loadFile isNew lines).parsedEntries
            (loadFile isNew lines).loadedAnnotations).get? n = some o2
        ∧ ∀ k, k ≠ "user_annotations" → getKey o2 k = getKey o k := by
  constructor
  · rw [saveToDisk, saveToDiskAux_length, loadFile_entries, List.length_map]
  · intro n o ho
    have he : (loadFile isNew lines).parsedEntries.get? n =
        some (injectAnns isNew o) := by
      rw [loadFile_entries, List.get?_map, ho]
      rfl
    rw [saveToDisk_get, he]
    refine ⟨mergeEntry ((loadFile isNew lines).loadedAnnotations n)
      (injectAnns isNew o), rfl, ?_⟩
    intro k hk
    rw [getKey_mergeEntry_ne _ _ hk, getKey_injectAnns_ne _ _ hk]

/-- Witness for C1 at a concrete one-record input. -/
theorem c1_round_trip_witness :
    ∃ o2,
      (saveToDisk (loadFile false [Line.parsed [("a", Val.vStr "1")]]).parsedEntries
          (loadFile false [Line.parsed [("a", Val.vStr "1")]]).loadedAnnotations).get? 0
        = some o2
      ∧ ∀ k, k ≠ "user_annotations" →
          getKey o2 k = getKey [("a", Val.vStr "1")] k :=
  (c1_round_trip false [Line.parsed [("a", Val.vStr "1")]]).2 0
    [("a", Val.vStr "1")] rfl

/-- C7: a line that fails to JSON-parse is dropped without aborting the load:
the records parsed from the lines before and after the malformed one are
exactly the records of loading those lines alone, in order. -/
theorem c7_parse_error_recovery (isNew : Bool) (pre post : List Line) :
    (loadFile isNew (pre ++ Line.malformed :: post)).parsedEntries =
      (loadFile isNew pre).parsedEntries ++
        (loadFile isNew post).parsedEntries := by
  rw [loadFile_entries, loadFile_entries, loadFile_entries]
  rw [parsedOf, parsedOf, parsedOf, List.filterMap_append, List.filterMap_cons]
  simp

/-- C10: the overlay produced by load is keyed by position among successfully
parsed records: the entries are exactly the parsed objects in order (blank and
malformed lines contributing nothing), and the overlay at every index n is
precisely the (truthy) user_annotations carried by the record at Document
index n, none otherwise. -/
theorem c10_overlay_position (isNew : Bool) (lines : List Line) (n : Nat) :
    (loadFile isNew lines).parsedEntries =
      (parsedOf lines).map (injectAnns isNew)
  ∧ (loadFile isNew lines).loadedAnnotations n =
      uaOf ((loadFile isNew lines).parsedEntries.get? n) :=
  ⟨loadFile_entries isNew lines, loadFile_annots isNew lines n⟩

/-- C3 (amended): when no matching output artifact exists, exactly one
immediate write is performed by handleSelectFile itself, its content has one
output record per parsed record, and for every parsed record that does not
already carry a truthy user_annotations value, the written annotation of each
of its tracked (non-telemetry) fields is the default one. -/
theorem c3_bootstrap_write (outputContent sourceContent : List Line) :
    (handleSelectFile false outputContent sourceContent).writes.length = 1
  ∧ (∀ w ∈ (handleSelectFile false outputContent sourceContent).writes,
      w.length = (parsedOf sourceContent).length)
  ∧ (∀ w ∈ (handleSelectFile false outputContent sourceContent).writes,
      ∀ i r k, (parsedOf sourceContent).get? i = some r →
        truthyOpt (getKey r "user_annotations") = false →
        k ∈ r.map Prod.fst → k ∉ TELEMETRY_KEYS →
        annotAt w i k = some defaultAnnot) := by
  have hw : (handleSelectFile false outputContent sourceContent).writes =
      [saveToDisk (loadFile true sourceContent).parsedEntries
        (loadFile true sourceContent).loadedAnnotations] := rfl
  refine ⟨by rw [hw]; rfl, ?_, ?_⟩
  · intro w hwmem
    rw [hw, List.mem_singleton] at hwmem
    subst hwmem
    rw [saveToDisk, saveToDiskAux_length, loadFile_entries, List.length_map]
  · intro w hwmem i r k hr htr hkmem htel
    rw [hw, List.mem_singleton] at hwmem
    subst hwmem
    have he : (loadFile true sourceContent).parsedEntries.get? i =
        some (injectAnns true r) := by
      rw [loadFile_entries, List.get?_map, hr]
      rfl
    have hinj : injectAnns true r =
        setKey r "user_annotations" (.vObj (initAnnotations r)) := by
      simp [injectAnns, htr]
    have hua : getKey (injectAnns true r) "user_annotations" =
        some (.vObj (initAnnotations r)) := by
      rw [hinj]
      exact getKey_setKey_self r _ _
    have hanns : (loadFile true sourceContent).loadedAnnotations i =
        some (.vObj (initAnnotations r)) := by
      rw [loadFile_annots, he]
      simp [uaOf, hua, truthyOpt, truthy]
    have hsave : (saveToDisk (loadFile true sourceContent).parsedEntries
        (loadFile true sourceContent).loadedAnnotations).get? i =
        some (setKey (injectAnns true r) "user_annotations"
          (.vObj (initAnnotations r))) := by
      rw [saveToDisk_get, he, hanns]
      simp [mergeEntry, truthy]
    rw [annotAt, hsave]
    simp only [Option.some_bind]
    rw [getKey_setKey_self]
    simp only [Option.some_bind, asObj]
    rw [getKey_initAnnotations, if_pos ⟨hkmem, htel⟩]

/-- Witness for C3 (amended) at a concrete one-record source file. -/
theorem c3_bootstrap_write_witness :
    (handleSelectFile false [] [Line.parsed [("q", Val.vStr "x")]]).writes.length = 1
  ∧ annotAt (saveToDisk
        (loadFile true [Line.parsed [("q", Val.vStr "x")]]).parsedEntries
        (loadFile true [Line.parsed [("q", Val.vStr "x")]]).loadedAnnotations)
      0 "q" = some defaultAnnot :=
  ⟨(c3_bootstrap_write [] [Line.parsed [("q", Val.vStr "x")]]).1,
   (c3_bootstrap_write [] [Line.parsed [("q", Val.vStr "x")]]).2.2
     (saveToDisk (loadFile true [Line.parsed [("q", Val.vStr "x")]]).parsedEntries
       (loadFile true [Line.parsed [("q", Val.vStr "x")]]).loadedAnnotations)
     (by exact List.mem_singleton.mpr rfl)
     0 [("q", Val.vStr "x")] "q" rfl rfl (by decide) (by decide)⟩

/-- Counterexample to C3 as stated: a parsed source record that already
carries a user_annotations sub-object keeps it in the bootstrap write — its
tracked field q is written with correctness yes, not the default. -/
theorem c3_counterexample :
    (handleSelectFile false [] [Line.parsed cSrcObj]).writes.map
        (fun w => annotAt w 0 "q")
      = [some (Val.vObj [("correctness", Val.vStr "yes"),
                         ("comment", Val.vStr "")])]
  ∧ ("q" : String) ∉ TELEMETRY_KEYS
  ∧ some (Val.vObj [("correctness", Val.vStr "yes"), ("comment", Val.vStr "")])
      ≠ some defaultAnnot := by
  refine ⟨rfl, by decide, ?_⟩
  simp [defaultAnnot]

/-- C2 exhibit: two mutations 600 time units apart arm two debounce timers
that fire at 500 and 1100; with a storage write latency of 1000 units the
second write starts at 1100 while the first is in flight until 1500 — the
code has no writing-state guard, so the writes overlap. -/
theorem c2_overlapping_writes :
    useDebounce 500 [(0, "m1"), (600, "m2")] = [(500, "m1"), (1100, "m2")]
  ∧ overlapFree 1000
      ((useDebounce 500 [(0, "m1"), (600, "m2")]).map Prod.fst) = false :=
  ⟨rfl, rfl⟩

/-- C4: mutations whose consecutive gaps stay inside the 500-unit quiet
period coalesce into exactly one write carrying the final payload (each call
cancels and restarts the pending timer); mutations spaced beyond the quiet
period each produce their own write. -/
theorem c4_debounce_coalescing {α : Type} (c : Nat × α) (cs : List (Nat × α)) :
    (List.Chain' (fun x y => x.1 < y.1 ∧ y.1 < x.1 + 500) (c :: cs) →
      useDebounce 500 (c :: cs) =
        [(((c :: cs).getLastD c).1 + 500, ((c :: cs).getLastD c).2)])
  ∧ (List.Chain' (fun x y => x.1 + 500 < y.1) (c :: cs) →
      useDebounce 500 (c :: cs) = (c :: cs).map (fun x => (x.1 + 500, x.2))) := by
  have h0 : useDebounce 500 (c :: cs) =
      debounceAux 500 cs (some (c.1 + 500, c.2)) := rfl
  constructor
  · intro h
    rw [h0, List.getLastD_cons]
    exact debounceAux_coalesce 500 cs c h
  · intro h
    rw [h0, debounceAux_separate 500 cs c h]
    rfl

/-- Witness for C4: three calls inside one quiet period produce one write at
the last call time plus 500 with the last payload; two calls spaced beyond
the quiet period produce two writes. -/
theorem c4_debounce_coalescing_witness :
    useDebounce 500 [(0, "a"), (100, "b"), (200, "c")] = [(700, "c")]
  ∧ useDebounce 500 [(0, "x"), (600, "y")] = [(500, "x"), (1100, "y")] :=
  ⟨(c4_debounce_coalescing (0, "a") [(100, "b"), (200, "c")]).1
     (by simp [List.chain'_cons]),
   (c4_debounce_coalescing (0, "x") [(600, "y")]).2
     (by simp [List.chain'_cons])⟩

/-- Counterexample to C5 as stated: after deleting column b, the remaining
row still carries key b while headers no longer does, so the key-subset Row
invariant fails. -/
theorem c5_delete_counterexample :
    ¬ ∀ r ∈ (handleDeleteColumn t0 "b").data,
        ∀ k ∈ r.map Prod.fst, k ∈ (handleDeleteColumn t0 "b").headers := by
  decide

/-- C5 (amended): deleting a column removes exactly the target name from
headers and leaves every Row entirely unchanged — data for the remaining
columns is untouched, but the deleted key is not dropped from the Rows. -/
theorem c5_delete_column_frame (t : TableState) (target : String) :
    (handleDeleteColumn t target).data = t.data
  ∧ target ∉ (handleDeleteColumn t target).headers
  ∧ ∀ h ∈ t.headers, h ≠ target →
      h ∈ (handleDeleteColumn t target).headers := by
  refine ⟨rfl, ?_, ?_⟩
  · intro hmem
    rw [handleDeleteColumn] at hmem
    simp only [List.mem_filter, bne_self_eq_false] at hmem
    exact absurd hmem.2 (by simp)
  · intro h hm hne
    rw [handleDeleteColumn]
    simp only [List.mem_filter]
    exact ⟨hm, by simp [hne]⟩

/-- Witness for C5 (amended) at the concrete two-column table. -/
theorem c5_delete_column_frame_witness :
    (handleDeleteColumn t0 "b").data = t0.data
  ∧ "b" ∉ (handleDeleteColumn t0 "b").headers
  ∧ "a" ∈ (handleDeleteColumn t0 "b").headers :=
  ⟨(c5_delete_column_frame t0 "b").1, (c5_delete_column_frame t0 "b").2.1,
   (c5_delete_column_frame t0 "b").2.2 "a" (by decide) (by decide)⟩

/-- C6: with the grid editing cell (r, h) and draft text typed, Escape only
leaves editing mode — the selection stays on the same cell and the data is
untouched, so the cell still reads its pre-edit value; Enter instead commits
the draft into the Row at (r, h), leaves editing mode, and moves the selected
row one down clamped to the last row. -/
theorem c6_edit_commit_vs_cancel (s : GridState) (r : Nat) (h draft : String)
    (row : Row) (hedit : s.isEditing = true)
    (hsel : s.selectedCell = some ⟨(r : Int), some h⟩)
    (hrow : s.data.get? r = some row) :
    ((handleKeyDown s .escape draft r h).isEditing = false
      ∧ (handleKeyDown s .escape draft r h).selectedCell =
          some ⟨(r : Int), some h⟩
      ∧ (handleKeyDown s .escape draft r h).data = s.data
      ∧ valueAt (handleKeyDown s .escape draft r h).data r h = getKey row h)
  ∧ ((handleKeyDown s .enter draft r h).isEditing = false
      ∧ valueAt (handleKeyDown s .enter draft r h).data r h = some draft
      ∧ (handleKeyDown s .enter draft r h).selectedCell =
          some ⟨min ((s.data.length : Int) - 1) ((r : Int) + 1), some h⟩) := by
  have hesc : handleKeyDown s .escape draft r h =
      { s with isEditing := false } := by
    simp [handleKeyDown, hedit, handleKeyDownEditing]
  have hent : handleKeyDown s .enter draft r h =
      { s with
          data := handleCellChange s.data r h draft
          isEditing := false
          selectedCell := some
            ⟨min ((s.data.length : Int) - 1) ((r : Int) + 1), some h⟩ } := by
    simp [handleKeyDown, hedit, handleKeyDownEditing]
  refine ⟨⟨?_, ?_, ?_, ?_⟩, ?_, ?_, ?_⟩
  · rw [hesc]
  · rw [hesc]
    exact hsel
  · rw [hesc]
  · rw [hesc]
    show (s.data.get? r).bind (fun a => getKey a h) = getKey row h
    rw [hrow]
    rfl
  · rw [hent]
  · rw [hent]
    simp only [valueAt, handleCellChange]
    rw [updateRowAt_get draft s.data r row h hrow]
    simp [getKey_setKey_self]
  · rw [hent]

/-- Witness for C6 on a concrete two-row grid in editing mode. -/
theorem c6_edit_commit_vs_cancel_witness :
    ((handleKeyDown g0 .escape "X" 0 "a").isEditing = false
      ∧ (handleKeyDown g0 .escape "X" 0 "a").selectedCell =
          some ⟨(0 : Int), some "a"⟩
      ∧ (handleKeyDown g0 .escape "X" 0 "a").data = g0.data
      ∧ valueAt (handleKeyDown g0 .escape "X" 0 "a").data 0 "a" =
          getKey [("a", "old"), ("b", "u")] "a")
  ∧ ((handleKeyDown g0 .enter "X" 0 "a").isEditing = false
      ∧ valueAt (handleKeyDown g0 .enter "X" 0 "a").data 0 "a" = some "X"
      ∧ (handleKeyDown g0 .enter "X" 0 "a").selectedCell =
          some ⟨min ((g0.data.length : Int) - 1) ((0 : Int) + 1), some "a"⟩) :=
  c6_edit_commit_vs_cancel g0 0 "a" "X" [("a", "old"), ("b", "u")] rfl rfl rfl

/-- C8: in navigate mode arrow movement is clamped on both axes: ArrowDown on
the last row leaves the selection unchanged, and ArrowLeft on column index 0
leaves it unchanged — no wrapping, no error. -/
theorem c8_navigation_clamping (s : GridState) (txt : String) (r : Nat)
    (h : String) (hnav : s.isEditing = false) (hmem : h ∈ s.headers) :
    (r + 1 = s.data.length →
      (handleKeyDown s .arrowDown txt r h).selectedCell =
        some ⟨(r : Int), some h⟩)
  ∧ (jsIndexOf s.headers h = 0 →
      (handleKeyDown s .arrowLeft txt r h).selectedCell =
        some ⟨(r : Int), some h⟩) := by
  constructor
  · intro hlast
    have hdown : (handleKeyDown s .arrowDown txt r h).selectedCell =
        some ⟨min ((s.data.length : Int) - 1) ((r : Int) + 1),
              intGet s.headers (jsIndexOf s.headers h)⟩ := by
      simp [handleKeyDown, hnav, handleKeyDownNavigate]
    rw [hdown]
    have hcast : (s.data.length : Int) = (r : Int) + 1 := by
      exact_mod_cast hlast.symm
    have hrow : min ((s.data.length : Int) - 1) ((r : Int) + 1) = (r : Int) := by
      rw [hcast]
      have h1 : ((r : Int) + 1) - 1 = (r : Int) := by ring
      rw [h1]
      exact min_eq_left (by omega)
    rw [hrow, intGet_jsIndexOf hmem]
  · intro hidx
    have hleft : (handleKeyDown s .arrowLeft txt r h).selectedCell =
        some ⟨(r : Int), intGet s.headers (max 0 (jsIndexOf s.headers h - 1))⟩ := by
      simp [handleKeyDown, hnav, handleKeyDownNavigate]
    rw [hleft, hidx]
    have hmax : max (0 : Int) (0 - 1) = 0 := by decide
    rw [hmax]
    have hcol : intGet s.headers 0 = some h := by
      rw [intGet, if_neg (by omega)]
      exact get_of_jsIndexOf_zero hidx
    rw [hcol]

/-- Witness for C8 on a concrete 2 by 2 grid, selected on the last row and
first column. -/
theorem c8_navigation_clamping_witness :
    (handleKeyDown g1 .arrowDown "" 1 "a").selectedCell =
      some ⟨(1 : Int), some "a"⟩
  ∧ (handleKeyDown g1 .arrowLeft "" 1 "a").selectedCell =
      some ⟨(1 : Int), some "a"⟩ :=
  ⟨(c8_navigation_clamping g1 "" 1 "a" rfl (by decide)).1 rfl,
   (c8_navigation_clamping g1 "" 1 "a" rfl (by decide)).2 rfl⟩

/-- C9: an annotation update at (i, k, f) changes the overlay nowhere else:
other record indices keep their annotation maps, other field keys of record i
keep their annotations, the entry at (i, k) is defined afterwards with the
updated sub-field equal to the new value, its other sub-field keeps its old
value (default-filled when the entry was absent), and the entries sequence is
unchanged. -/
theorem c9_annotation_change_frame (s : ViewerState) (key field : String)
    (value : Val) :
    (handleAnnotationChange s key field value).entries = s.entries
  ∧ (∀ j, j ≠ s.currentIndex →
      (handleAnnotationChange s key field value).annotations j =
        s.annotations j)
  ∧ (∃ v, fieldAnnotAt (handleAnnotationChange s key field value).annotations
        s.currentIndex key = some v)
  ∧ (∀ k2, k2 ≠ key →
      fieldAnnotAt (handleAnnotationChange s key field value).annotations
          s.currentIndex k2
        = fieldAnnotAt s.annotations s.currentIndex k2)
  ∧ subFieldAt (handleAnnotationChange s key field value).annotations
      s.currentIndex key field = some value
  ∧ (fieldAnnotAt s.annotations s.currentIndex key = none →
      ∀ f2, f2 ≠ field →
        subFieldAt (handleAnnotationChange s key field value).annotations
            s.currentIndex key f2
          = getKey (asObj defaultAnnot) f2)
  ∧ (∀ a, fieldAnnotAt s.annotations s.currentIndex key = some (Val.vObj a) →
      ∀ f2, f2 ≠ field →
        subFieldAt (handleAnnotationChange s key field value).annotations
            s.currentIndex key f2
          = getKey a f2) := by
  have hat : (handleAnnotationChange s key field value).annotations
      s.currentIndex =
      some (.vObj (setKey (entryAnnots s.annotations s.currentIndex) key
        (.vObj (setKey
          (asObj (jsOr (getKey (entryAnnots s.annotations s.currentIndex) key)
            defaultAnnot)) field value)))) := by
    simp [handleAnnotationChange, entryAnnots]
  have hf : ∀ k2,
      fieldAnnotAt (handleAnnotationChange s key field value).annotations
        s.currentIndex k2 =
      getKey (setKey (entryAnnots s.annotations s.currentIndex) key
        (.vObj (setKey
          (asObj (jsOr (getKey (entryAnnots s.annotations s.currentIndex) key)
            defaultAnnot)) field value))) k2 := by
    intro k2
    rw [fieldAnnotAt, entryAnnots, hat]
    simp [jsOr, truthy, asObj]
  refine ⟨rfl, ?_, ?_, ?_, ?_, ?_, ?_⟩
  · intro j hj
    simp [handleAnnotationChange, hj]
  · exact ⟨_, by rw [hf, getKey_setKey_self]⟩
  · intro k2 hk2
    rw [hf, getKey_setKey_ne _ (fun hcon => hk2 hcon.symm)]
    rfl
  · rw [subFieldAt, hf, getKey_setKey_self]
    simp only [Option.some_bind, asObj]
    rw [getKey_setKey_self]
  · intro hnone f2 hf2
    have hE : getKey (entryAnnots s.annotations s.currentIndex) key = none :=
      hnone
    rw [subFieldAt, hf, getKey_setKey_self]
    simp only [Option.some_bind, asObj, hE]
    rw [getKey_setKey_ne _ (fun hcon => hf2 hcon.symm)]
    rfl
  · intro a ha f2 hf2
    have hE : getKey (entryAnnots s.annotations s.currentIndex) key =
        some (Val.vObj a) := ha
    rw [subFieldAt, hf, getKey_setKey_self]
    simp only [Option.some_bind, asObj, hE]
    simp only [jsOr, truthy, if_true, asObj]
    rw [getKey_setKey_ne _ (fun hcon => hf2 hcon.symm)]

/-- Witness for C9 at a concrete viewer state with an empty overlay. -/
theorem c9_annotation_change_frame_witness :
    (handleAnnotationChange vs0 "q" "comment" (Val.vStr "hi")).entries =
      vs0.entries
  ∧ (handleAnnotationChange vs0 "q" "comment" (Val.vStr "hi")).annotations 1 =
      vs0.annotations 1
  ∧ subFieldAt (handleAnnotationChange vs0 "q" "comment"
        (Val.vStr "hi")).annotations 0 "q" "comment" = some (Val.vStr "hi")
  ∧ subFieldAt (handleAnnotationChange vs0 "q" "comment"
        (Val.vStr "hi")).annotations 0 "q" "correctness" =
      getKey (asObj defaultAnnot) "correctness" :=
  ⟨(c9_annotation_change_frame vs0 "q" "comment" (Val.vStr "hi")).1,
   (c9_annotation_change_frame vs0 "q" "comment" (Val.vStr "hi")).2.1 1
     (by decide),
   (c9_annotation_change_frame vs0 "q" "comment" (Val.vStr "hi")).2.2.2.2.1,
   (c9_annotation_change_frame vs0 "q" "comment"
       (Val.vStr "hi")).2.2.2.2.2.1 rfl "correctness" (by decide)⟩

end DataParasite
